import Mathlib

/-!
Formal model of `TOOLS/gcp_to_aruco_mapper.py`: the greedy bipartite matcher
that pairs ground-control points (GCPs) to geotagged images by distance under
a threshold, together with its potential-match bookkeeping, conflict notes,
unmatched-GCP reporting, the GCP file loader, and the EXIF GPS extraction.

Distances are embedded as rationals (the matching logic only compares them);
identifiers follow the source: GCP ids are integers (`int(data[0])`), image
references are filenames (strings).
-/

/-- One candidate pairing `(gcp_id, filename, distance)` as appended to
`all_distances` in the main loop. -/
structure Obs where
  gcp : Int
  img : String
  dist : ℚ
deriving DecidableEq, Repr

/-- Stable insertion of an observation into a list sorted ascending by
distance: the new element goes before the first element it is `≤` to. -/
def insertByDist (a : Obs) : List Obs → List Obs
  | [] => [a]
  | b :: l => if a.dist ≤ b.dist then a :: b :: l else b :: insertByDist a l

/-- Model of `all_distances.sort(key=lambda x: x[2])`: a stable ascending
sort by distance (Python's sort is stable; any stable comparison sort by the
same key yields the identical list). -/
def sortObs (l : List Obs) : List Obs := l.foldr insertByDist []

theorem insertByDist_perm (a : Obs) (l : List Obs) :
    List.Perm (insertByDist a l) (a :: l) := by
  induction l with
  | nil => simp [insertByDist]
  | cons b t ih =>
    by_cases h : a.dist ≤ b.dist
    · simp [insertByDist, h]
    · simp only [insertByDist, if_neg h]
      exact (List.Perm.cons b ih).trans (List.Perm.swap a b t)

theorem sortObs_perm (l : List Obs) : List.Perm (sortObs l) l := by
  induction l with
  | nil => simp [sortObs]
  | cons a t ih =>
    exact (insertByDist_perm a (sortObs t)).trans (List.Perm.cons a ih)

theorem insertByDist_sorted {a : Obs} {l : List Obs}
    (h : l.Pairwise (fun x y => x.dist ≤ y.dist)) :
    (insertByDist a l).Pairwise (fun x y => x.dist ≤ y.dist) := by
  induction l with
  | nil => simp [insertByDist]
  | cons b t ih =>
    rcases List.pairwise_cons.mp h with ⟨hb, ht⟩
    by_cases hab : a.dist ≤ b.dist
    · simp only [insertByDist, if_pos hab]
      refine List.pairwise_cons.mpr ⟨?_, h⟩
      intro x hx
      rcases List.mem_cons.mp hx with rfl | hx
      · exact hab
      · exact le_trans hab (hb x hx)
    · simp only [insertByDist, if_neg hab]
      refine List.pairwise_cons.mpr ⟨?_, ih ht⟩
      intro x hx
      rcases List.mem_cons.mp ((insertByDist_perm a t).mem_iff.mp hx) with rfl | hxt
      · exact le_of_lt (lt_of_not_le hab)
      · exact hb x hxt

theorem sortObs_sorted (l : List Obs) :
    (sortObs l).Pairwise (fun x y => x.dist ≤ y.dist) := by
  induction l with
  | nil => simp [sortObs]
  | cons a t ih => exact insertByDist_sorted ih

theorem insertByDist_filter_dist (a : Obs) (l : List Obs) (d : ℚ) :
    (insertByDist a l).filter (fun o => decide (o.dist = d)) =
      if a.dist = d then a :: l.filter (fun o => decide (o.dist = d))
      else l.filter (fun o => decide (o.dist = d)) := by
  induction l with
  | nil =>
    by_cases h : a.dist = d <;> simp [insertByDist, List.filter, h]
  | cons b t ih =>
    by_cases hab : a.dist ≤ b.dist
    · simp only [insertByDist, if_pos hab]
      by_cases ha : a.dist = d <;> simp [List.filter_cons, ha]
    · have hba : b.dist < a.dist := lt_of_not_le hab
      simp only [insertByDist, if_neg hab]
      rw [List.filter_cons, List.filter_cons, ih]
      by_cases hb : b.dist = d
      · have ha : ¬ a.dist = d := by
          intro ha; exact absurd (ha.trans hb.symm) (ne_of_gt hba)
        simp [hb, ha]
      · by_cases ha : a.dist = d <;> simp [hb, ha]

/-- Stability of the sort: for each distance value the subsequence of
observations at that distance is exactly the input subsequence, in input
enumeration order. -/
theorem sortObs_filter_dist (l : List Obs) (d : ℚ) :
    (sortObs l).filter (fun o => decide (o.dist = d)) =
      l.filter (fun o => decide (o.dist = d)) := by
  induction l with
  | nil => simp [sortObs]
  | cons a t ih =>
    show (insertByDist a (sortObs t)).filter _ = _
    rw [insertByDist_filter_dist]
    by_cases h : a.dist = d <;> simp [List.filter_cons, h, ih]

theorem lookup_append_some {α β : Type} [BEq α] {l₁ l₂ : List (α × β)}
    {k : α} {v : β} (h : l₁.lookup k = some v) :
    (l₁ ++ l₂).lookup k = some v := by
  induction l₁ with
  | nil => simp [List.lookup] at h
  | cons e t ih =>
    rcases e with ⟨a, b⟩
    simp only [List.lookup, List.cons_append] at h ⊢
    cases hk : (k == a) <;> simp [hk] at h ⊢
    · exact ih h
    · exact h

theorem lookup_append_none {α β : Type} [BEq α] {l₁ : List (α × β)}
    (l₂ : List (α × β)) {k : α} (h : l₁.lookup k = none) :
    (l₁ ++ l₂).lookup k = l₂.lookup k := by
  induction l₁ with
  | nil => simp
  | cons e t ih =>
    rcases e with ⟨a, b⟩
    simp only [List.lookup, List.cons_append] at h ⊢
    cases hk : (k == a) <;> simp [hk] at h ⊢
    exact ih h

theorem lookup_eq_none_iff {α β : Type} [BEq α] [LawfulBEq α]
    {l : List (α × β)} {k : α} :
    l.lookup k = none ↔ k ∉ l.map Prod.fst := by
  induction l with
  | nil => simp [List.lookup]
  | cons e t ih =>
    rcases e with ⟨a, b⟩
    simp only [List.lookup, List.map_cons, List.mem_cons]
    cases hk : (k == a) <;> simp at hk
    · simp [hk, ih]
    · simp [hk]

theorem lookup_isSome_of_mem {α β : Type} [BEq α] [LawfulBEq α]
    {l : List (α × β)} {k : α} (h : k ∈ l.map Prod.fst) :
    (l.lookup k).isSome := by
  cases hl : l.lookup k with
  | none => exact absurd (lookup_eq_none_iff.mp hl) (not_not.mpr h)
  | some v => rfl

theorem lookup_mem {α β : Type} [BEq α] [LawfulBEq α]
    {l : List (α × β)} {k : α} {v : β} (h : l.lookup k = some v) :
    (k, v) ∈ l := by
  induction l with
  | nil => simp [List.lookup] at h
  | cons e t ih =>
    rcases e with ⟨a, b⟩
    simp only [List.lookup] at h
    cases hk : (k == a) <;> simp [hk] at h
    · exact List.mem_cons_of_mem _ (ih h)
    · simp at hk
      subst hk; subst h; exact List.mem_cons_self _ _

theorem mem_lookup_of_nodup {α β : Type} [BEq α] [LawfulBEq α]
    {l : List (α × β)} {k : α} {v : β}
    (nd : (l.map Prod.fst).Nodup) (h : (k, v) ∈ l) :
    l.lookup k = some v := by
  induction l with
  | nil => simp at h
  | cons e t ih =>
    rcases e with ⟨a, b⟩
    simp only [List.map_cons, List.nodup_cons] at nd
    rcases List.mem_cons.mp h with he | ht
    · rcases Prod.mk.injEq .. ▸ he with ⟨rfl, rfl⟩
      simp [List.lookup]
    · have hka : ¬ (k == a) = true := by
        simp only [beq_iff_eq]
        intro hk
        subst hk
        exact nd.1 (List.mem_map_of_mem Prod.fst ht)
      simp [List.lookup, hka]
      · exact ih nd.2 ht

/-- State of the greedy matching loop: `best_matches` (as an
insertion-ordered association list), the two exclusion sets and
`potential_matches`. -/
structure MatchState where
  best : List (Int × String × ℚ)
  usedImages : List String
  usedGcp : List Int
  potential : List (String × Int × ℚ)
deriving DecidableEq, Repr

/-- Initial state: empty `best_matches`, `used_images`, `used_gcp`,
`potential_matches`. -/
def initState : MatchState := ⟨[], [], [], []⟩

/-- One iteration of the greedy loop body for observation
`(gcp_id, filename, distance)`: skip if the distance exceeds the threshold;
otherwise record the first-seen potential match for the image, and commit the
pairing when both the GCP and the image are still unused. -/
def matchStep (maxD : ℚ) (s : MatchState) (o : Obs) : MatchState :=
  if o.dist ≤ maxD then
    let pot := if (s.potential.lookup o.img).isNone
      then s.potential ++ [(o.img, o.gcp, o.dist)]
      else s.potential
    if o.gcp ∉ s.usedGcp ∧ o.img ∉ s.usedImages then
      { best := s.best ++ [(o.gcp, o.img, o.dist)]
        usedImages := o.img :: s.usedImages
        usedGcp := o.gcp :: s.usedGcp
        potential := pot }
    else { s with potential := pot }
  else s

/-- Whole matching phase: sort all observations ascending by distance, then
fold the greedy loop body over the sorted list. -/
def runMatch (maxD : ℚ) (l : List Obs) : MatchState :=
  (sortObs l).foldl (matchStep maxD) initState

/-- Unmatched report input: `set(gcps.keys()) - used_gcp`. -/
def unmatchedGcps (gcpIds : List Int) (s : MatchState) : List Int :=
  gcpIds.filter (fun g => decide (g ∉ s.usedGcp))

/-- Conflict condition checked per committed entry in the reporting loop:
`potential_gcp and potential_gcp != gcp_id and potential_distance <
closest_distance`, where a missing entry yields the falsy `(None, None)` and
an integer `potential_gcp` is truthy exactly when nonzero. -/
def conflictCond (s : MatchState) (e : Int × String × ℚ) : Bool :=
  match s.potential.lookup e.2.1 with
  | some (pg, pd) => pg != 0 && pg != e.1 && decide (pd < e.2.2)
  | none => false

/-- Committed entries for which the reporting loop writes a conflict note. -/
def conflictNotes (s : MatchState) : List (Int × String × ℚ) :=
  s.best.filter (conflictCond s)

theorem matchStep_potential (maxD : ℚ) (s : MatchState) (o : Obs) :
    (matchStep maxD s o).potential =
      if o.dist ≤ maxD then
        (if (s.potential.lookup o.img).isNone
          then s.potential ++ [(o.img, o.gcp, o.dist)]
          else s.potential)
      else s.potential := by
  by_cases h : o.dist ≤ maxD
  · by_cases hp : (s.potential.lookup o.img).isNone
    · by_cases hc : o.gcp ∉ s.usedGcp ∧ o.img ∉ s.usedImages <;>
        simp [matchStep, h, hp, hc]
    · by_cases hc : o.gcp ∉ s.usedGcp ∧ o.img ∉ s.usedImages <;>
        simp [matchStep, h, hp, hc]
  · simp [matchStep, h]

theorem matchStep_best (maxD : ℚ) (s : MatchState) (o : Obs) :
    (matchStep maxD s o).best =
      if o.dist ≤ maxD ∧ o.gcp ∉ s.usedGcp ∧ o.img ∉ s.usedImages
        then s.best ++ [(o.gcp, o.img, o.dist)]
        else s.best := by
  unfold matchStep
  by_cases h : o.dist ≤ maxD
  · simp only [if_pos h]
    by_cases h2 : o.gcp ∉ s.usedGcp ∧ o.img ∉ s.usedImages <;>
      simp [h, h2]
  · simp [h]

theorem matchStep_usedGcp (maxD : ℚ) (s : MatchState) (o : Obs) :
    (matchStep maxD s o).usedGcp =
      if o.dist ≤ maxD ∧ o.gcp ∉ s.usedGcp ∧ o.img ∉ s.usedImages
        then o.gcp :: s.usedGcp
        else s.usedGcp := by
  unfold matchStep
  by_cases h : o.dist ≤ maxD
  · simp only [if_pos h]
    by_cases h2 : o.gcp ∉ s.usedGcp ∧ o.img ∉ s.usedImages <;>
      simp [h, h2]
  · simp [h]

theorem matchStep_usedImages (maxD : ℚ) (s : MatchState) (o : Obs) :
    (matchStep maxD s o).usedImages =
      if o.dist ≤ maxD ∧ o.gcp ∉ s.usedGcp ∧ o.img ∉ s.usedImages
        then o.img :: s.usedImages
        else s.usedImages := by
  unfold matchStep
  by_cases h : o.dist ≤ maxD
  · simp only [if_pos h]
    by_cases h2 : o.gcp ∉ s.usedGcp ∧ o.img ∉ s.usedImages <;>
      simp [h, h2]
  · simp [h]

theorem lookup_append_single_ne {α β : Type} [BEq α] [LawfulBEq α]
    {l : List (α × β)} {k a : α} {v : β} (h : ¬ k = a) :
    (l ++ [(a, v)]).lookup k = l.lookup k := by
  cases hl : l.lookup k with
  | some w => exact lookup_append_some hl
  | none =>
    rw [lookup_append_none _ hl]
    have hk : (k == a) = false := beq_eq_false_iff_ne.mpr h
    simp [List.lookup, hk]

theorem lookup_append_single_self {α β : Type} [BEq α] [LawfulBEq α]
    {l : List (α × β)} {k : α} {v : β} (h : l.lookup k = none) :
    (l ++ [(k, v)]).lookup k = some v := by
  rw [lookup_append_none _ h]
  simp [List.lookup]

/-- Loop invariant of the greedy matching phase: committed distances are
within threshold, the exclusion sets coincide with the keys and values of
`best_matches`, all dictionary key lists are duplicate-free, and every
committed image has a potential-match entry. -/
structure MatchInv (maxD : ℚ) (s : MatchState) : Prop where
  bestDist : ∀ e ∈ s.best, e.2.2 ≤ maxD
  gcpKeys : ∀ g : Int, g ∈ s.usedGcp ↔ g ∈ s.best.map Prod.fst
  imgKeys : ∀ f : String, f ∈ s.usedImages ↔ f ∈ s.best.map (fun e => e.2.1)
  keysNodup : (s.best.map Prod.fst).Nodup
  imgsNodup : (s.best.map (fun e => e.2.1)).Nodup
  potKeysNodup : (s.potential.map Prod.fst).Nodup
  bestPot : ∀ e ∈ s.best, ((s.potential.lookup e.2.1).isSome : Prop)

theorem initState_inv (maxD : ℚ) : MatchInv maxD initState := by
  constructor <;> simp [initState]

theorem matchStep_potential_some {maxD : ℚ} {s : MatchState} {o : Obs}
    {f : String} {v : Int × ℚ} (h : s.potential.lookup f = some v) :
    (matchStep maxD s o).potential.lookup f = some v := by
  rw [matchStep_potential]
  split
  · split
    · exact lookup_append_some h
    · exact h
  · exact h

theorem matchStep_best_some {maxD : ℚ} {s : MatchState} {o : Obs}
    {g : Int} {v : String × ℚ} (h : s.best.lookup g = some v) :
    (matchStep maxD s o).best.lookup g = some v := by
  rw [matchStep_best]
  split
  · exact lookup_append_some h
  · exact h

theorem matchStep_inv {maxD : ℚ} {s : MatchState} {o : Obs}
    (h : MatchInv maxD s) : MatchInv maxD (matchStep maxD s o) := by
  have hpot : ((matchStep maxD s o).potential.map Prod.fst).Nodup := by
    rw [matchStep_potential]
    split
    · split
      · rename_i hn
        rw [List.map_append]
        simp only [List.map_cons, List.map_nil]
        rw [List.nodup_append]
        refine ⟨h.potKeysNodup, List.nodup_singleton _, ?_⟩
        intro a ha hb
        simp only [List.mem_singleton] at hb
        subst hb
        exact (lookup_eq_none_iff.mp (Option.isNone_iff_eq_none.mp hn)) ha
      · exact h.potKeysNodup
    · exact h.potKeysNodup
  have hpots : ∀ f : String, ((s.potential.lookup f).isSome : Prop) →
      (((matchStep maxD s o).potential.lookup f).isSome : Prop) := by
    intro f hf
    rcases Option.isSome_iff_exists.mp hf with ⟨v, hv⟩
    rw [matchStep_potential_some hv]
    rfl
  by_cases hc : o.dist ≤ maxD ∧ o.gcp ∉ s.usedGcp ∧ o.img ∉ s.usedImages
  · have hbest := matchStep_best maxD s o
    have hug := matchStep_usedGcp maxD s o
    have hui := matchStep_usedImages maxD s o
    rw [if_pos hc] at hbest hug hui
    constructor
    · intro e he
      rw [hbest] at he
      rcases List.mem_append.mp he with he | he
      · exact h.bestDist e he
      · simp only [List.mem_singleton] at he
        subst he
        exact hc.1
    · intro g
      rw [hbest, hug, List.map_append]
      simp only [List.mem_cons, List.mem_append, List.map_cons, List.map_nil,
        List.mem_singleton]
      rw [h.gcpKeys g]
      tauto
    · intro f
      rw [hbest, hui, List.map_append]
      simp only [List.mem_cons, List.mem_append, List.map_cons, List.map_nil,
        List.mem_singleton]
      rw [h.imgKeys f]
      tauto
    · rw [hbest, List.map_append]
      simp only [List.map_cons, List.map_nil]
      rw [List.nodup_append]
      refine ⟨h.keysNodup, List.nodup_singleton _, ?_⟩
      intro a ha hb
      simp only [List.mem_singleton] at hb
      subst hb
      exact hc.2.1 ((h.gcpKeys o.gcp).mpr ha)
    · rw [hbest, List.map_append]
      simp only [List.map_cons, List.map_nil]
      rw [List.nodup_append]
      refine ⟨h.imgsNodup, List.nodup_singleton _, ?_⟩
      intro a ha hb
      simp only [List.mem_singleton] at hb
      subst hb
      exact hc.2.2 ((h.imgKeys o.img).mpr ha)
    · exact hpot
    · intro e he
      rw [hbest] at he
      rcases List.mem_append.mp he with he | he
      · exact hpots e.2.1 (h.bestPot e he)
      · simp only [List.mem_singleton] at he
        subst he
        rw [matchStep_potential, if_pos hc.1]
        split
        · rename_i hn
          rw [lookup_append_single_self (Option.isNone_iff_eq_none.mp hn)]
          rfl
        · rename_i hn
          simp only [Option.isNone_iff_eq_none] at hn
          cases hv : s.potential.lookup o.img with
          | none => exact absurd hv hn
          | some v => rfl
  · have hbest := matchStep_best maxD s o
    have hug := matchStep_usedGcp maxD s o
    have hui := matchStep_usedImages maxD s o
    rw [if_neg hc] at hbest hug hui
    constructor
    · rw [hbest]; exact h.bestDist
    · rw [hbest, hug]; exact h.gcpKeys
    · rw [hbest, hui]; exact h.imgKeys
    · rw [hbest]; exact h.keysNodup
    · rw [hbest]; exact h.imgsNodup
    · exact hpot
    · intro e he
      rw [hbest] at he
      exact hpots e.2.1 (h.bestPot e he)

theorem foldl_inv (maxD : ℚ) (l : List Obs) {s : MatchState}
    (h : MatchInv maxD s) : MatchInv maxD (l.foldl (matchStep maxD) s) := by
  induction l generalizing s with
  | nil => exact h
  | cons o t ih => exact ih (matchStep_inv h)

theorem runMatch_inv (maxD : ℚ) (l : List Obs) :
    MatchInv maxD (runMatch maxD l) :=
  foldl_inv maxD (sortObs l) (initState_inv maxD)

theorem foldl_best_some (maxD : ℚ) (l : List Obs) {s : MatchState}
    {g : Int} {v : String × ℚ} (h : s.best.lookup g = some v) :
    ((l.foldl (matchStep maxD) s).best.lookup g) = some v := by
  induction l generalizing s with
  | nil => exact h
  | cons o t ih => exact ih (matchStep_best_some h)

theorem foldl_potential_some (maxD : ℚ) (l : List Obs) {s : MatchState}
    {f : String} {v : Int × ℚ} (h : s.potential.lookup f = some v) :
    ((l.foldl (matchStep maxD) s).potential.lookup f) = some v := by
  induction l generalizing s with
  | nil => exact h
  | cons o t ih => exact ih (matchStep_potential_some h)

theorem foldl_usedGcp_src (maxD : ℚ) (l : List Obs) (s : MatchState)
    (g : Int) (h : g ∈ (l.foldl (matchStep maxD) s).usedGcp) :
    g ∈ s.usedGcp ∨ ∃ o ∈ l, o.gcp = g ∧ o.dist ≤ maxD := by
  induction l generalizing s with
  | nil => exact Or.inl h
  | cons o t ih =>
    rcases ih (matchStep maxD s o) h with hs | ⟨w, hw, hwg, hwd⟩
    · rw [matchStep_usedGcp] at hs
      by_cases hc : o.dist ≤ maxD ∧ o.gcp ∉ s.usedGcp ∧ o.img ∉ s.usedImages
      · rw [if_pos hc] at hs
        rcases List.mem_cons.mp hs with rfl | hs
        · exact Or.inr ⟨o, List.mem_cons_self _ _, rfl, hc.1⟩
        · exact Or.inl hs
      · rw [if_neg hc] at hs
        exact Or.inl hs
    · exact Or.inr ⟨w, List.mem_cons_of_mem _ hw, hwg, hwd⟩

/-- Characterization of `potential_matches` after folding the loop over a
list of observations: an image's entry is its first within-threshold
observation in scan order, unless an entry already existed. -/
theorem foldl_potential_lookup (maxD : ℚ) (l : List Obs) (s : MatchState)
    (f : String) :
    ((l.foldl (matchStep maxD) s).potential.lookup f) =
      Option.or (s.potential.lookup f)
        (((l.filter (fun o => o.img == f && decide (o.dist ≤ maxD))).head?).map
          (fun o => (o.gcp, o.dist))) := by
  induction l generalizing s with
  | nil => simp
  | cons o t ih =>
    rw [List.foldl_cons, ih, matchStep_potential]
    by_cases ho : o.dist ≤ maxD
    · rw [if_pos ho]
      by_cases hf : o.img = f
      · subst hf
        by_cases hn : ((s.potential.lookup o.img).isNone : Prop)
        · have h0 : s.potential.lookup o.img = none :=
            Option.isNone_iff_eq_none.mp hn
          rw [if_pos hn, lookup_append_single_self h0, h0]
          simp [List.filter_cons, ho]
        · rw [if_neg hn]
          cases hv : s.potential.lookup o.img with
          | none => simp [hv] at hn
          | some v => simp
      · have hcons : (o :: t).filter
            (fun x => x.img == f && decide (x.dist ≤ maxD)) =
            t.filter (fun x => x.img == f && decide (x.dist ≤ maxD)) := by
          simp [List.filter_cons, hf]
        rw [hcons]
        by_cases hn : ((s.potential.lookup o.img).isNone : Prop)
        · rw [if_pos hn, lookup_append_single_ne (fun hx => hf hx.symm)]
        · rw [if_neg hn]
    · rw [if_neg ho]
      have hcons : (o :: t).filter
          (fun x => x.img == f && decide (x.dist ≤ maxD)) =
          t.filter (fun x => x.img == f && decide (x.dist ≤ maxD)) := by
        simp [List.filter_cons, ho]
      rw [hcons]

/-- Committing step: when an observation is within threshold and both its
GCP and image are still unused, the pairing is appended to `best_matches`. -/
theorem matchStep_commit {maxD : ℚ} {s : MatchState} {o : Obs}
    (hd : o.dist ≤ maxD) (hg : o.gcp ∉ s.usedGcp) (hi : o.img ∉ s.usedImages) :
    (matchStep maxD s o).best = s.best ++ [(o.gcp, o.img, o.dist)] := by
  rw [matchStep_best, if_pos ⟨hd, hg, hi⟩]

/-- Committed entries are never revisited: a lookup that succeeds in the
state reached after any prefix of the scan returns the same pairing in the
final state. -/
theorem foldl_best_lookup_preserved (maxD : ℚ) (pre post : List Obs)
    {g : Int} {v : String × ℚ}
    (h : (((pre.foldl (matchStep maxD) initState)).best.lookup g) = some v) :
    ((((pre ++ post).foldl (matchStep maxD) initState)).best.lookup g) = some v := by
  rw [List.foldl_append]
  exact foldl_best_some maxD post h

/-- One parsed line of the GCP file, `gcp_id x y z` (the `z` column is read
but unused downstream). -/
structure GcpLine where
  label : Int
  x : ℚ
  y : ℚ
  z : ℚ
deriving DecidableEq, Repr

/-- Python dict assignment `gcps[label] = v`: overwrite in place when the
key already exists (keeping the original insertion position), otherwise
append a new entry. -/
def dictInsert {α : Type} (m : List (Int × α)) (k : Int) (v : α) :
    List (Int × α) :=
  if (m.lookup k).isSome then m.map (fun e => if e.1 == k then (k, v) else e)
  else m ++ [(k, v)]

/-- Model of `load_gcps`: each line stores `(lon, lat)` under its integer
label into a Python dict. The reprojection `transform_to_wgs84` (pyproj,
an external collaborator) returns `(lat, lon)` and is passed as `proj`. -/
def load_gcps (proj : ℚ → ℚ → ℚ × ℚ) (lines : List GcpLine) :
    List (Int × (ℚ × ℚ)) :=
  lines.foldl
    (fun m ln => dictInsert m ln.label ((proj ln.x ln.y).2, (proj ln.x ln.y).1))
    []

theorem lookup_map_overwrite_self {α : Type} (m : List (Int × α)) (k : Int)
    (v : α) (h : ((m.lookup k).isSome : Prop)) :
    ((m.map (fun e => if e.1 == k then (k, v) else e)).lookup k) = some v := by
  induction m with
  | nil => simp [List.lookup] at h
  | cons e t ih =>
    rcases e with ⟨a, b⟩
    by_cases hk : a = k
    · subst hk
      rw [List.map_cons]
      have hhead : (if ((a, b) : Int × α).1 == a then (a, v) else (a, b))
          = (a, v) := by simp
      rw [hhead]
      simp [List.lookup]
    · have h1 : (a == k) = false := beq_eq_false_iff_ne.mpr hk
      have h2 : (k == a) = false :=
        beq_eq_false_iff_ne.mpr (fun hx => hk hx.symm)
      simp only [List.lookup, h2] at h
      rw [List.map_cons]
      have hhead : (if ((a, b) : Int × α).1 == k then (k, v) else (a, b))
          = (a, b) := by simp [h1]
      rw [hhead]
      simp only [List.lookup, h2]
      exact ih h

theorem lookup_map_overwrite_ne {α : Type} (m : List (Int × α))
    (k k' : Int) (v : α) (h : ¬ k' = k) :
    ((m.map (fun e => if e.1 == k then (k, v) else e)).lookup k') =
      m.lookup k' := by
  induction m with
  | nil => simp
  | cons e t ih =>
    rcases e with ⟨a, b⟩
    rw [List.map_cons]
    by_cases hk : a = k
    · subst hk
      have hhead : (if ((a, b) : Int × α).1 == a then (a, v) else (a, b))
          = (a, v) := by simp
      have h3 : (k' == a) = false := beq_eq_false_iff_ne.mpr h
      rw [hhead]
      simp only [List.lookup, h3]
      exact ih
    · have h1 : (a == k) = false := beq_eq_false_iff_ne.mpr hk
      have hhead : (if ((a, b) : Int × α).1 == k then (k, v) else (a, b))
          = (a, b) := by simp [h1]
      rw [hhead]
      cases hke : (k' == a) <;> simp only [List.lookup, hke]
      exact ih

theorem dictInsert_lookup_self {α : Type} (m : List (Int × α)) (k : Int)
    (v : α) : (dictInsert m k v).lookup k = some v := by
  unfold dictInsert
  by_cases h : ((m.lookup k).isSome : Prop)
  · rw [if_pos h]
    exact lookup_map_overwrite_self m k v h
  · rw [if_neg h]
    have h0 : m.lookup k = none := by
      cases hm : m.lookup k with
      | none => rfl
      | some w => rw [hm] at h; simp at h
    exact lookup_append_single_self h0

theorem dictInsert_lookup_ne {α : Type} (m : List (Int × α)) (k k' : Int)
    (v : α) (h : ¬ k' = k) :
    (dictInsert m k v).lookup k' = m.lookup k' := by
  unfold dictInsert
  by_cases hs : ((m.lookup k).isSome : Prop)
  · rw [if_pos hs]
    exact lookup_map_overwrite_ne m k k' v h
  · rw [if_neg hs]
    exact lookup_append_single_ne h

theorem load_gcps_foldl_lookup (proj : ℚ → ℚ → ℚ × ℚ)
    (lines : List GcpLine) (m0 : List (Int × (ℚ × ℚ))) (lab : Int) :
    ((lines.foldl
        (fun m ln =>
          dictInsert m ln.label ((proj ln.x ln.y).2, (proj ln.x ln.y).1))
        m0).lookup lab) =
      match (lines.filter (fun ln => ln.label == lab)).getLast? with
      | some ln => some ((proj ln.x ln.y).2, (proj ln.x ln.y).1)
      | none => m0.lookup lab := by
  induction lines generalizing m0 with
  | nil => simp
  | cons ln t ih =>
    rw [List.foldl_cons, ih]
    cases hft : (t.filter (fun x => x.label == lab)).getLast? with
    | some lt =>
      rcases List.getLast?_eq_some_iff.mp hft with ⟨ys, hys⟩
      by_cases hl : ln.label = lab
      · have hcf : (ln :: t).filter (fun x => x.label == lab) =
            ln :: (ys ++ [lt]) := by
          simp [List.filter_cons, hl, hys]
        rw [hcf, ← List.cons_append, List.getLast?_concat]
      · have hcf : (ln :: t).filter (fun x => x.label == lab) =
            ys ++ [lt] := by
          simp [List.filter_cons, hl, hys]
        rw [hcf, List.getLast?_concat]
    | none =>
      have hnil : t.filter (fun x => x.label == lab) = [] :=
        List.getLast?_eq_none_iff.mp hft
      by_cases hl : ln.label = lab
      · have hcf : (ln :: t).filter (fun x => x.label == lab) = [ln] := by
          simp [List.filter_cons, hl, hnil]
        rw [hcf, List.getLast?_singleton]
        subst hl
        rw [dictInsert_lookup_self]
      · have hcf : (ln :: t).filter (fun x => x.label == lab) = [] := by
          simp [List.filter_cons, hl, hnil]
        rw [hcf]
        exact dictInsert_lookup_ne _ _ _ _ (fun hx => hl hx.symm)

/-- Value stored under one tag of the GPS sub-dictionary of the EXIF data:
a degrees-minutes-seconds triple of numbers, a text value (hemisphere
references such as N/S/E/W), or a bare number (altitude). -/
inductive GpsVal where
  | dms (d m s : ℚ)
  | txt (t : String)
  | num (x : ℚ)
deriving DecidableEq, Repr

/-- EXIF dictionary of one image as seen by the tool: `none` when
`_getexif()` yields nothing, otherwise a mapping from tag id to value where
only the GPS tag 34853 (itself a sub-dictionary) is read. -/
abbrev ExifData := Option (List (Nat × List (Nat × GpsVal)))

/-- Subscript access `gps_info[k]`: a missing key raises (KeyError), modelled
as `Except.error`. -/
def getTag (gps : List (Nat × GpsVal)) (k : Nat) : Except Unit GpsVal :=
  match gps.lookup k with
  | some v => Except.ok v
  | none => Except.error ()

/-- Use of a GPS value as a DMS triple, `float(v[0]) + float(v[1])/60 +
float(v[2])/3600`: anything but a triple of numbers raises, modelled as
`Except.error`. -/
def asDms : GpsVal → Except Unit (ℚ × ℚ × ℚ)
  | GpsVal.dms d m s => Except.ok (d, m, s)
  | _ => Except.error ()

/-- Use of a GPS value through `float(...)`: a non-numeric value raises,
modelled as `Except.error`. -/
def asNum : GpsVal → Except Unit ℚ
  | GpsVal.num x => Except.ok x
  | _ => Except.error ()

/-- Model of `extract_gps_from_exif`: returns `ok none` when the EXIF data
is absent/falsy or lacks the GPS tag 34853, the signed coordinates plus
altitude when all reads succeed, and `error` (an uncaught exception) when
the GPS sub-structure is malformed. The result tuple is
`(longitude, latitude, altitude)`. -/
def extract_gps_from_exif (exif : ExifData) :
    Except Unit (Option (ℚ × ℚ × ℚ)) :=
  match exif with
  | none => Except.ok none
  | some ed =>
    if ed.isEmpty then Except.ok none
    else
      match ed.lookup 34853 with
      | none => Except.ok none
      | some gps => do
        let latd ← asDms (← getTag gps 2)
        let latRef ← getTag gps 1
        let lat0 := latd.1 + latd.2.1 / 60 + latd.2.2 / 3600
        let lat := if latRef = GpsVal.txt "S" then -lat0 else lat0
        let lond ← asDms (← getTag gps 4)
        let lonRef ← getTag gps 3
        let lon0 := lond.1 + lond.2.1 / 60 + lond.2.2 / 3600
        let lon := if lonRef = GpsVal.txt "W" then -lon0 else lon0
        let alt ← asNum (← getTag gps 6)
        Except.ok (some (lon, lat, alt))

/-- Model of the observation-generation loop of `__main__`: for each image,
extract its GPS position; a `None` result skips the image, a successful
result contributes one observation per loaded GCP, and an exception — there
is no try/except in the loop — propagates, aborting the whole batch.
The great-circle metric (`calculate_distance`, an external collaborator) is
passed in as `dist`. -/
def buildObs (dist : (ℚ × ℚ × ℚ) → (ℚ × ℚ) → ℚ)
    (gcps : List (Int × (ℚ × ℚ))) :
    List (String × ExifData) → Except Unit (List Obs)
  | [] => Except.ok []
  | im :: rest =>
    match extract_gps_from_exif im.2 with
    | Except.error e => Except.error e
    | Except.ok none => buildObs dist gcps rest
    | Except.ok (some g) =>
      match buildObs dist gcps rest with
      | Except.error e => Except.error e
      | Except.ok l =>
        Except.ok (gcps.map (fun p => ⟨p.1, im.1, dist g p.2⟩) ++ l)

/-- C1: every committed entry of MatchResult has distance at most the
configured threshold; a GCP all of whose candidate observations lie at
distance strictly greater than the threshold gets no MatchResult entry and
appears in the unmatched set. -/
theorem c1_threshold_exclusivity (l : List Obs) (gcpIds : List Int)
    (maxD : ℚ) (g : Int) (hg : g ∈ gcpIds)
    (hfar : ∀ o ∈ l, o.gcp = g → maxD < o.dist) :
    (∀ e ∈ (runMatch maxD l).best, e.2.2 ≤ maxD) ∧
    (runMatch maxD l).best.lookup g = none ∧
    g ∈ unmatchedGcps gcpIds (runMatch maxD l) := by
  have inv := runMatch_inv maxD l
  have hng : g ∉ (runMatch maxD l).usedGcp := by
    intro hmem
    rcases foldl_usedGcp_src maxD (sortObs l) initState g hmem with
      h0 | ⟨o, ho, hog, hod⟩
    · simp [initState] at h0
    · exact absurd hod (not_le.mpr (hfar o ((sortObs_perm l).mem_iff.mp ho) hog))
  refine ⟨inv.bestDist, ?_, ?_⟩
  · exact lookup_eq_none_iff.mpr (fun hk => hng ((inv.gcpKeys g).mpr hk))
  · simp only [unmatchedGcps, List.mem_filter]
    exact ⟨hg, by simpa using hng⟩

/-- C1 witness: with threshold 100 and a single GCP 1 whose only candidate
observation is at distance 150, the result has no entry for GCP 1 and
reports it unmatched. -/
theorem c1_threshold_exclusivity_witness :
    (∀ e ∈ (runMatch 100 [⟨1, "A", 150⟩]).best, e.2.2 ≤ 100) ∧
    (runMatch 100 [⟨1, "A", 150⟩]).best.lookup 1 = none ∧
    1 ∈ unmatchedGcps [1] (runMatch 100 [⟨1, "A", 150⟩]) :=
  c1_threshold_exclusivity [⟨1, "A", 150⟩] [1] 100 1 (by decide) (by decide)

/-- C2: MatchResult is an injective partial function from GCPs to images:
its GCP keys are pairwise distinct, and so are its committed images. -/
theorem c2_injectivity (l : List Obs) (maxD : ℚ) :
    ((runMatch maxD l).best.map Prod.fst).Nodup ∧
    ((runMatch maxD l).best.map (fun e => e.2.1)).Nodup :=
  ⟨(runMatch_inv maxD l).keysNodup, (runMatch_inv maxD l).imgsNodup⟩

/-- C3: the MatchResult key set and the unmatched set are disjoint and
together cover exactly the loaded GCP identifier set. -/
theorem c3_completeness_partition (l : List Obs) (gcpIds : List Int)
    (maxD : ℚ) (hl : ∀ o ∈ l, o.gcp ∈ gcpIds) :
    (∀ g : Int,
      (g ∈ (runMatch maxD l).best.map Prod.fst ∨
        g ∈ unmatchedGcps gcpIds (runMatch maxD l)) ↔ g ∈ gcpIds) ∧
    (∀ g : Int, ¬ (g ∈ (runMatch maxD l).best.map Prod.fst ∧
        g ∈ unmatchedGcps gcpIds (runMatch maxD l))) := by
  have inv := runMatch_inv maxD l
  have huse : ∀ g : Int, g ∈ (runMatch maxD l).usedGcp → g ∈ gcpIds := by
    intro g hmem
    rcases foldl_usedGcp_src maxD (sortObs l) initState g hmem with
      h0 | ⟨o, ho, hog, _⟩
    · simp [initState] at h0
    · exact hog ▸ hl o ((sortObs_perm l).mem_iff.mp ho)
  constructor
  · intro g
    constructor
    · rintro (hk | hu)
      · exact huse g ((inv.gcpKeys g).mpr hk)
      · exact (List.mem_filter.mp hu).1
    · intro hgi
      by_cases hu : g ∈ (runMatch maxD l).usedGcp
      · exact Or.inl ((inv.gcpKeys g).mp hu)
      · refine Or.inr ?_
        simp only [unmatchedGcps, List.mem_filter]
        exact ⟨hgi, by simpa using hu⟩
  · rintro g ⟨hk, hu⟩
    have h1 : g ∈ (runMatch maxD l).usedGcp := (inv.gcpKeys g).mpr hk
    have h2 := (List.mem_filter.mp hu).2
    simp only [decide_eq_true_iff] at h2
    exact h2 h1

/-- C3 witness: with GCP set {1, 2} and one in-threshold observation for
GCP 1, key 1 is committed (hence in the union) and the partition holds at
identifiers 1 and 2. -/
theorem c3_completeness_partition_witness :
    ((1 ∈ (runMatch 100 [⟨1, "A", 5⟩]).best.map Prod.fst ∨
      1 ∈ unmatchedGcps [1, 2] (runMatch 100 [⟨1, "A", 5⟩])) ↔
        1 ∈ ([1, 2] : List Int)) ∧
    ¬ (2 ∈ (runMatch 100 [⟨1, "A", 5⟩]).best.map Prod.fst ∧
      2 ∈ unmatchedGcps [1, 2] (runMatch 100 [⟨1, "A", 5⟩])) :=
  ⟨(c3_completeness_partition [⟨1, "A", 5⟩] [1, 2] 100 (by decide)).1 1,
   (c3_completeness_partition [⟨1, "A", 5⟩] [1, 2] 100 (by decide)).2 2⟩

/-- C4 counterexample: observations (0,Y,1), (0,X,2), (1,X,3) under
threshold 100 commit GCP 0 to Y and GCP 1 to X; image X's potential entry
names GCP 0 at distance 2, different from the committed GCP 1 and strictly
closer than 3, yet no conflict note is emitted for (1, X, 3) because the
code tests the candidate identifier for Python truthiness and 0 is falsy. -/
theorem c4_conflict_note_counterexample :
    (1, ("X", (3 : ℚ))) ∈
      (runMatch 100 [⟨0, "Y", 1⟩, ⟨0, "X", 2⟩, ⟨1, "X", 3⟩]).best ∧
    (runMatch 100 [⟨0, "Y", 1⟩, ⟨0, "X", 2⟩, ⟨1, "X", 3⟩]).potential.lookup "X"
      = some (0, 2) ∧
    (0 : Int) ≠ 1 ∧ (2 : ℚ) < 3 ∧
    (1, ("X", (3 : ℚ))) ∉
      conflictNotes (runMatch 100 [⟨0, "Y", 1⟩, ⟨0, "X", 2⟩, ⟨1, "X", 3⟩]) := by
  decide

/-- C4 (amended): for a committed pair whose image has potential entry
(pg, pd), a conflict note is emitted iff pg is nonzero (the code tests the
candidate for Python truthiness), pg differs from the committed GCP, and pd
is strictly smaller than the committed distance. -/
theorem c4_conflict_note_iff_amended (l : List Obs) (maxD : ℚ) (g pg : Int)
    (f : String) (d pd : ℚ)
    (hmem : (g, (f, d)) ∈ (runMatch maxD l).best)
    (hpot : (runMatch maxD l).potential.lookup f = some (pg, pd)) :
    ((g, (f, d)) ∈ conflictNotes (runMatch maxD l) ↔
      (pg ≠ 0 ∧ pg ≠ g ∧ pd < d)) := by
  have hc : conflictCond (runMatch maxD l) (g, (f, d)) = true ↔
      (pg ≠ 0 ∧ pg ≠ g ∧ pd < d) := by
    simp [conflictCond, hpot, and_assoc]
  unfold conflictNotes
  rw [List.mem_filter]
  constructor
  · rintro ⟨_, hcond⟩
    exact hc.mp hcond
  · intro hcond
    exact ⟨hmem, hc.mpr hcond⟩

/-- C4 amended-claim witness: observations (1,Y,1), (1,X,2), (2,X,3) commit
GCP 2 to X while image X's potential entry is GCP 1 at distance 2; all three
conditions hold and the conflict note for (2, X, 3) is emitted. -/
theorem c4_conflict_note_iff_amended_witness :
    ((2, ("X", (3 : ℚ))) ∈
      conflictNotes (runMatch 100 [⟨1, "Y", 1⟩, ⟨1, "X", 2⟩, ⟨2, "X", 3⟩]) ↔
      ((1 : Int) ≠ 0 ∧ (1 : Int) ≠ 2 ∧ (2 : ℚ) < 3)) :=
  c4_conflict_note_iff_amended [⟨1, "Y", 1⟩, ⟨1, "X", 2⟩, ⟨2, "X", 3⟩] 100
    2 1 "X" 3 2 (by decide) (by decide)

/-- C10: a committed pair whose image's potential entry names GCP 0, with a
strictly smaller distance and differing from the committed GCP, never
receives a conflict note: the truthiness test treats identifier 0 as
absent. -/
theorem c10_zero_candidate_suppressed (l : List Obs) (maxD : ℚ) (g : Int)
    (f : String) (d pd : ℚ)
    (hmem : (g, (f, d)) ∈ (runMatch maxD l).best)
    (hpot : (runMatch maxD l).potential.lookup f = some (0, pd))
    (hne : g ≠ 0) (hlt : pd < d) :
    (g, (f, d)) ∉ conflictNotes (runMatch maxD l) := by
  intro hc
  rcases List.mem_filter.mp hc with ⟨_, hcond⟩
  simp [conflictCond, hpot] at hcond

/-- C10 witness: in the concrete run of observations (0,Y,1), (0,X,2),
(1,X,3), the committed pair (1, X, 3) with zero-id closer candidate (0, 2)
gets no conflict note. -/
theorem c10_zero_candidate_suppressed_witness :
    (1, ("X", (3 : ℚ))) ∉
      conflictNotes (runMatch 100 [⟨0, "Y", 1⟩, ⟨0, "X", 2⟩, ⟨1, "X", 3⟩]) :=
  c10_zero_candidate_suppressed [⟨0, "Y", 1⟩, ⟨0, "X", 2⟩, ⟨1, "X", 3⟩] 100
    1 "X" 3 2 (by decide) (by decide) (by decide) (by decide)

/-- C7: commitments are irrevocable: a pairing present in `best_matches`
after any prefix of the sorted scan is still there, unchanged, at the end,
and no other GCP ends up holding that pairing's image. -/
theorem c7_greedy_irrevocable (maxD : ℚ) (l pre post : List Obs) (g : Int)
    (v : String × ℚ)
    (hsplit : sortObs l = pre ++ post)
    (h : ((pre.foldl (matchStep maxD) initState).best.lookup g) = some v) :
    (runMatch maxD l).best.lookup g = some v ∧
    (∀ g2 : Int, ∀ d2 : ℚ,
      (runMatch maxD l).best.lookup g2 = some (v.1, d2) → g2 = g ∧ d2 = v.2) := by
  have h1 : (runMatch maxD l).best.lookup g = some v := by
    unfold runMatch
    rw [hsplit, List.foldl_append]
    exact foldl_best_some maxD post h
  refine ⟨h1, ?_⟩
  intro g2 d2 h2
  have inv := runMatch_inv maxD l
  have m1 : (g, v) ∈ (runMatch maxD l).best := lookup_mem h1
  have m2 : (g2, (v.1, d2)) ∈ (runMatch maxD l).best := lookup_mem h2
  have heq : ((g, v) : Int × String × ℚ) = (g2, (v.1, d2)) :=
    List.inj_on_of_nodup_map inv.imgsNodup m1 m2 rfl
  rcases Prod.mk.injEq .. ▸ heq with ⟨hg, hv⟩
  rcases Prod.mk.injEq .. ▸ hv.symm with ⟨_, hd⟩
  exact ⟨hg.symm, hd⟩

/-- C7 witness: G1 commits to image A before its equal-distance observation
of image B is scanned; the final match for G1 is still (A, 5). -/
theorem c7_greedy_irrevocable_witness :
    sortObs [⟨1, "A", (5 : ℚ)⟩, ⟨1, "B", 5⟩] =
      [⟨1, "A", 5⟩] ++ [⟨1, "B", 5⟩] ∧
    (runMatch 100 [⟨1, "A", 5⟩, ⟨1, "B", 5⟩]).best.lookup 1 = some ("A", 5) :=
  ⟨by decide,
   (c7_greedy_irrevocable 100 [⟨1, "A", 5⟩, ⟨1, "B", 5⟩] [⟨1, "A", 5⟩]
     [⟨1, "B", 5⟩] 1 ("A", 5) (by decide) (by decide)).1⟩

/-- C6: the observation list is sorted ascending by distance with a stable
sort (equal-distance observations keep input enumeration order), and an
observation reached by the scan while within threshold with both its GCP
and image still unused is committed — hence of two equal-distance,
otherwise-eligible observations, the earlier one in input order commits
first. -/
theorem c6_stable_sort_tie_break (l : List Obs) (maxD : ℚ) :
    ((sortObs l).Pairwise (fun x y => x.dist ≤ y.dist)) ∧
    (∀ d : ℚ, (sortObs l).filter (fun o => decide (o.dist = d)) =
      l.filter (fun o => decide (o.dist = d))) ∧
    (∀ p a q, sortObs l = p ++ a :: q → a.dist ≤ maxD →
      a.gcp ∉ (p.foldl (matchStep maxD) initState).usedGcp →
      a.img ∉ (p.foldl (matchStep maxD) initState).usedImages →
      (runMatch maxD l).best.lookup a.gcp = some (a.img, a.dist)) := by
  refine ⟨sortObs_sorted l, fun d => sortObs_filter_dist l d, ?_⟩
  intro p a q hsplit hd hg hi
  have hinv : MatchInv maxD (p.foldl (matchStep maxD) initState) :=
    foldl_inv maxD p (initState_inv maxD)
  have hnone : (p.foldl (matchStep maxD) initState).best.lookup a.gcp = none :=
    lookup_eq_none_iff.mpr (fun hk => hg ((hinv.gcpKeys a.gcp).mpr hk))
  have hstep : (matchStep maxD (p.foldl (matchStep maxD) initState) a).best.lookup
      a.gcp = some (a.img, a.dist) := by
    rw [matchStep_commit hd hg hi]
    exact lookup_append_single_self hnone
  unfold runMatch
  rw [hsplit, List.foldl_append, List.foldl_cons]
  exact foldl_best_some maxD q hstep

/-- C6 witness: two equal-distance observations (1,X,5) then (2,Y,5); the
stable sort keeps them in input order and the earlier one commits. -/
theorem c6_stable_sort_tie_break_witness :
    sortObs [⟨1, "X", (5 : ℚ)⟩, ⟨2, "Y", 5⟩] =
      [] ++ ⟨1, "X", 5⟩ :: [⟨2, "Y", 5⟩] ∧
    (runMatch 100 [⟨1, "X", 5⟩, ⟨2, "Y", 5⟩]).best.lookup 1 = some ("X", 5) :=
  ⟨by decide,
   (c6_stable_sort_tie_break [⟨1, "X", 5⟩, ⟨2, "Y", 5⟩] 100).2.2
     [] ⟨1, "X", 5⟩ [⟨2, "Y", 5⟩] (by decide) (by decide) (by decide) (by decide)⟩

theorem filter_key_of_nodup {α β : Type} [BEq α] [LawfulBEq α]
    {l : List (α × β)} {k : α} {v : β}
    (nd : (l.map Prod.fst).Nodup) (h : l.lookup k = some v) :
    l.filter (fun e => e.1 == k) = [(k, v)] := by
  induction l with
  | nil => simp [List.lookup] at h
  | cons e t ih =>
    rcases e with ⟨a, b⟩
    simp only [List.map_cons, List.nodup_cons] at nd
    by_cases hk : a = k
    · subst hk
      have hself : (a == a) = true := beq_self_eq_true a
      simp only [List.lookup, hself] at h
      have hb : b = v := Option.some.inj h
      have hnf : t.filter (fun e => e.1 == a) = [] := by
        rw [List.filter_eq_nil_iff]
        intro x hx hpx
        exact nd.1 ((beq_iff_eq.mp hpx) ▸ List.mem_map_of_mem Prod.fst hx)
      have hfc : (((a, b) :: t).filter (fun e => e.1 == a)) =
          (a, b) :: t.filter (fun e => e.1 == a) := by
        simp [List.filter_cons]
      rw [hfc, hnf, hb]
    · have h2 : (k == a) = false :=
        beq_eq_false_iff_ne.mpr (fun hx => hk hx.symm)
      simp only [List.lookup, h2] at h
      have h1 : (a == k) = false := beq_eq_false_iff_ne.mpr hk
      have hfc : (((a, b) :: t).filter (fun e => e.1 == k)) =
          t.filter (fun e => e.1 == k) := by
        simp [List.filter_cons, h1]
      rw [hfc]
      exact ih nd.2 h

/-- C8: every image with at least one within-threshold candidate gets
exactly one `potential_matches` entry; that entry is the within-threshold
candidate of minimal distance, ties resolved by input enumeration order,
and it is recorded independently of the committed matches. -/
theorem c8_potential_closest (l : List Obs) (maxD : ℚ) (f : String)
    (o0 : Obs) (h0 : o0 ∈ l) (hf0 : o0.img = f) (hd0 : o0.dist ≤ maxD) :
    (((runMatch maxD l).potential.lookup f).isSome = true) ∧
    (∀ g : Int, ∀ d : ℚ,
      (runMatch maxD l).potential.lookup f = some (g, d) →
      ((runMatch maxD l).potential.filter (fun e => e.1 == f) = [(f, (g, d))] ∧
       (∀ o ∈ l, o.img = f → o.dist ≤ maxD → d ≤ o.dist) ∧
       (l.filter (fun o => o.img == f && decide (o.dist ≤ maxD) &&
          decide (o.dist = d))).head? = some ⟨g, f, d⟩)) := by
  have hlookup : (runMatch maxD l).potential.lookup f =
      ((sortObs l).filter
          (fun o => o.img == f && decide (o.dist ≤ maxD))).head?.map
        (fun o => (o.gcp, o.dist)) := by
    have hchar := foldl_potential_lookup maxD (sortObs l) initState f
    unfold runMatch
    rw [hchar]
    simp [initState, List.lookup]
  have hmemF : o0 ∈ (sortObs l).filter
      (fun o => o.img == f && decide (o.dist ≤ maxD)) := by
    refine List.mem_filter.mpr ⟨(sortObs_perm l).mem_iff.mpr h0, ?_⟩
    simp [hf0, hd0]
  cases hFc : (sortObs l).filter (fun o => o.img == f && decide (o.dist ≤ maxD)) with
  | nil => rw [hFc] at hmemF; simp at hmemF
  | cons h1 F2 =>
    rw [hFc] at hlookup
    simp only [List.head?_cons, Option.map_some] at hlookup
    refine ⟨by rw [hlookup]; rfl, ?_⟩
    intro g d hgd
    have hone : (runMatch maxD l).potential.filter (fun e => e.1 == f) =
        [(f, (g, d))] :=
      filter_key_of_nodup (runMatch_inv maxD l).potKeysNodup hgd
    rw [hlookup] at hgd
    have hpair := Option.some.inj hgd
    have hg1 : h1.gcp = g := (Prod.mk.injEq .. ▸ hpair).1
    have hd1 : h1.dist = d := (Prod.mk.injEq .. ▸ hpair).2
    have hmem1 : h1 ∈ (sortObs l).filter
        (fun o => o.img == f && decide (o.dist ≤ maxD)) := by
      rw [hFc]
      exact List.mem_cons_self _ _
    have hP1 := (List.mem_filter.mp hmem1).2
    simp only [Bool.and_eq_true, beq_iff_eq, decide_eq_true_eq] at hP1
    have hsorted : ((sortObs l).filter
        (fun o => o.img == f && decide (o.dist ≤ maxD))).Pairwise
          (fun x y => x.dist ≤ y.dist) :=
      (sortObs_sorted l).sublist (List.filter_sublist _)
    rw [hFc] at hsorted
    refine ⟨hone, ?_, ?_⟩
    · intro o ho hof hod
      have hoF : o ∈ (sortObs l).filter
          (fun o => o.img == f && decide (o.dist ≤ maxD)) :=
        List.mem_filter.mpr ⟨(sortObs_perm l).mem_iff.mpr ho, by simp [hof, hod]⟩
      rw [hFc] at hoF
      rcases List.mem_cons.mp hoF with rfl | hmem2
      · exact le_of_eq hd1.symm
      · exact hd1 ▸ (List.pairwise_cons.mp hsorted).1 o hmem2
    · have hobs : h1 = ⟨g, f, d⟩ := by
        rw [← hg1, ← hP1.1, ← hd1]
      have step1 : l.filter (fun o => o.img == f && decide (o.dist ≤ maxD) &&
            decide (o.dist = d)) =
          (sortObs l).filter (fun o => o.img == f && decide (o.dist ≤ maxD) &&
            decide (o.dist = d)) := by
        rw [← List.filter_filter
              (p := fun o : Obs => o.img == f && decide (o.dist ≤ maxD))
              (fun o : Obs => decide (o.dist = d)) l,
            ← List.filter_filter
              (p := fun o : Obs => o.img == f && decide (o.dist ≤ maxD))
              (fun o : Obs => decide (o.dist = d)) (sortObs l),
            sortObs_filter_dist]
      have step2 : (((sortObs l).filter
            (fun o => o.img == f && decide (o.dist ≤ maxD))).filter
              (fun o => decide (o.dist = d))) =
          (sortObs l).filter (fun o => o.img == f && decide (o.dist ≤ maxD) &&
            decide (o.dist = d)) := by
        rw [List.filter_filter]
        exact List.filter_congr (fun x _ => by rw [Bool.and_comm])
      rw [step1, ← step2, hFc]
      have hfc2 : ((h1 :: F2).filter (fun o => decide (o.dist = d))) =
          h1 :: F2.filter (fun o => decide (o.dist = d)) := by
        simp [List.filter_cons, hd1]
      rw [hfc2, List.head?_cons, hobs]

/-- C8 witness: two equal-distance in-threshold candidates (1,X,7) then
(2,X,7) give image X exactly one potential entry, (1, 7): minimal distance
with the tie resolved in favor of the earlier input observation. -/
theorem c8_potential_closest_witness :
    ((runMatch 100 [⟨1, "X", (7 : ℚ)⟩, ⟨2, "X", 7⟩]).potential.filter
        (fun e => e.1 == "X") = [("X", (1, 7))] ∧
     (∀ o ∈ ([⟨1, "X", (7 : ℚ)⟩, ⟨2, "X", 7⟩] : List Obs),
        o.img = "X" → o.dist ≤ 100 → 7 ≤ o.dist) ∧
     (([⟨1, "X", (7 : ℚ)⟩, ⟨2, "X", 7⟩] : List Obs).filter
        (fun o => o.img == "X" && decide (o.dist ≤ 100) &&
          decide (o.dist = 7))).head? = some ⟨1, "X", 7⟩) :=
  (c8_potential_closest [⟨1, "X", 7⟩, ⟨2, "X", 7⟩] 100 "X" ⟨1, "X", 7⟩
    (by decide) (by decide) (by decide)).2 1 7 (by decide)

/-- C5 evaluation: an image whose EXIF data is absent is skipped and the
run continues (third conjunct), but an image whose GPS tag 34853 is present
with a malformed sub-structure — here missing the latitude entry, a
KeyError in the source — aborts the whole batch (second conjunct): the
per-image metadata failure propagates out of the loop, which has no
try/except. -/
theorem c5_metadata_failure_aborts_batch :
    extract_gps_from_exif (some [(34853, [])]) = Except.error () ∧
    buildObs (fun _ _ => 0) [(7, (0, 0))]
      [("a.jpg", some [(34853,
          [(2, GpsVal.dms 40 0 0), (1, GpsVal.txt "N"),
           (4, GpsVal.dms 90 0 0), (3, GpsVal.txt "W"),
           (6, GpsVal.num 100)])]),
       ("bad.jpg", some [(34853, [])]),
       ("c.jpg", none)] = Except.error () ∧
    buildObs (fun _ _ => 0) [(7, (0, 0))]
      [("a.jpg", some [(34853,
          [(2, GpsVal.dms 40 0 0), (1, GpsVal.txt "N"),
           (4, GpsVal.dms 90 0 0), (3, GpsVal.txt "W"),
           (6, GpsVal.num 100)])]),
       ("noexif.jpg", none)] =
      Except.ok [⟨7, "a.jpg", 0⟩] :=
  ⟨rfl, rfl, rfl⟩

/-- C9: `load_gcps` performs no deduplication on identifiers: the mapping
entry for an identifier holds the reprojected, swapped-to-(lon, lat)
coordinates of the last input line bearing that identifier. -/
theorem c9_load_gcps_last_write_wins (proj : ℚ → ℚ → ℚ × ℚ)
    (lines : List GcpLine) (lab : Int) (ln : GcpLine)
    (h : (lines.filter (fun l0 => l0.label == lab)).getLast? = some ln) :
    (load_gcps proj lines).lookup lab =
      some ((proj ln.x ln.y).2, (proj ln.x ln.y).1) := by
  unfold load_gcps
  rw [load_gcps_foldl_lookup, h]

/-- C9 witness: two lines with identifier 5; the stored entry comes from the
second (last) line. -/
theorem c9_load_gcps_last_write_wins_witness :
    (load_gcps (fun x y => (y, x)) [⟨5, 1, 2, 0⟩, ⟨5, 3, 4, 0⟩]).lookup 5 =
      some (3, 4) :=
  c9_load_gcps_last_write_wins (fun x y => (y, x))
    [⟨5, 1, 2, 0⟩, ⟨5, 3, 4, 0⟩] 5 ⟨5, 3, 4, 0⟩ (by decide)
